import Mathlib

/-!
Verification of the dev.md agent core: a shallow embedding of the Markdown
response parser (`src/parser/markdown.ts`), the agent control loop
(`src/agent/loop.ts`), context compression (`src/agent/compress.ts`), the
audit agent (`src/agent/audit.ts`), the command tool (`src/tools/command.ts`)
and the tool dispatcher (`src/tools/index.ts`), together with theorems that
settle the specification's claims about them.

Strings from the TypeScript source are modelled as `List Char`; JavaScript
string operations (`trim`, `split('\n')`, `lastIndexOf`, truthiness,
`toUpperCase`, regex line matches) are translated into explicit list
functions next to the definitions that use them.
-/

namespace DevMd

/-- Character sequences; the model of JavaScript strings. -/
abbrev Str := List Char

/-- JS `\s` whitespace class restricted to the ASCII characters the
program can encounter (space, tab, newline, CR, vertical tab, form feed). -/
def isJsSpace (c : Char) : Bool :=
  c = ' ' || c = '\t' || c = '\n' || c = '\r' || c = '\x0b' || c = '\x0c'

/-- JS `String.prototype.trim`. -/
def jsTrim (s : Str) : Str :=
  ((s.dropWhile isJsSpace).reverse.dropWhile isJsSpace).reverse

/-- JS `String.prototype.trimEnd`. -/
def jsTrimEnd (s : Str) : Str :=
  (s.reverse.dropWhile isJsSpace).reverse

/-- JS `s.split('\n')`: `"" ↦ [""]`, `"a\nb" ↦ ["a","b"]`. -/
def splitLines : Str → List Str
  | [] => [[]]
  | c :: cs =>
    if c = '\n' then [] :: splitLines cs
    else
      match splitLines cs with
      | [] => [[c]]
      | l :: ls => (c :: l) :: ls

/-- Join lines back with `'\n'` (inverse of `splitLines`). -/
def joinLines (ls : List Str) : Str :=
  (ls.intersperse ['\n']).flatten

/-- JS `Array.prototype.join(sep)`. -/
def joinSep (sep : Str) (ls : List Str) : Str :=
  (ls.intersperse sep).flatten

/-- Index of the last occurrence of `marker` in `s`
(JS `String.prototype.lastIndexOf`), `none` when absent. -/
def lastMarkerIdx (marker : Str) : Str → Option Nat
  | [] => if marker = [] then some 0 else none
  | c :: tl =>
    match lastMarkerIdx marker tl with
    | some i => some (i + 1)
    | none => if marker.isPrefixOf (c :: tl) then some 0 else none

/-! ## Parser data model (`src/parser/markdown.ts`) -/

/-- The eleven recognized tool names (`ToolName` union in the source). -/
inductive ToolName
  | LIST_DIRECTORY | READ_FILE | WRITE_FILE | FIND_AND_REPLACE_IN_FILE
  | COMMAND | UPDATE_TASK_LIST | ASK_USER | DONE
  | READ_BACKGROUND_PROCESS | LIST_BACKGROUND_PROCESSES | KILL_BACKGROUND_PROCESS
deriving DecidableEq, Repr

/-- Task status (`'pending' | 'in-progress' | 'complete'`). -/
inductive TaskStatus
  | pending | inProgress | complete
deriving DecidableEq, Repr

/-- Structure `TaskItem` from the source. -/
structure TaskItem where
  status : TaskStatus
  text : Str
deriving DecidableEq, Repr

/-- Structure `ToolCall` from the source. -/
structure ToolCall where
  toolChoice : ToolName
  toolInput : Str
deriving DecidableEq, Repr

/-- Structure `ParsedResponse` from the source: `toolChoice`/`toolInput` are the
single-tool compatibility accessors (first tool). -/
structure ParsedResponse where
  thoughts : Str
  taskList : List TaskItem
  tools : List ToolCall
  raw : Str
  toolChoice : ToolName
  toolInput : Str
deriving DecidableEq, Repr

/-- The membership test `TOOL_NAMES.includes(trimmed)` where `trimmed` is already trimmed and
upper-cased: recognize a tool name from its exact spelling. -/
def parseToolName (s : Str) : Option ToolName :=
  if s = "LIST_DIRECTORY".data then some .LIST_DIRECTORY
  else if s = "READ_FILE".data then some .READ_FILE
  else if s = "WRITE_FILE".data then some .WRITE_FILE
  else if s = "FIND_AND_REPLACE_IN_FILE".data then some .FIND_AND_REPLACE_IN_FILE
  else if s = "COMMAND".data then some .COMMAND
  else if s = "UPDATE_TASK_LIST".data then some .UPDATE_TASK_LIST
  else if s = "ASK_USER".data then some .ASK_USER
  else if s = "DONE".data then some .DONE
  else if s = "READ_BACKGROUND_PROCESS".data then some .READ_BACKGROUND_PROCESS
  else if s = "LIST_BACKGROUND_PROCESSES".data then some .LIST_BACKGROUND_PROCESSES
  else if s = "KILL_BACKGROUND_PROCESS".data then some .KILL_BACKGROUND_PROCESS
  else none

/-- The rendering of a tool name used in `"[<TOOL>]: <result>"`. -/
def toolNameStr : ToolName → Str
  | .LIST_DIRECTORY => "LIST_DIRECTORY".data
  | .READ_FILE => "READ_FILE".data
  | .WRITE_FILE => "WRITE_FILE".data
  | .FIND_AND_REPLACE_IN_FILE => "FIND_AND_REPLACE_IN_FILE".data
  | .COMMAND => "COMMAND".data
  | .UPDATE_TASK_LIST => "UPDATE_TASK_LIST".data
  | .ASK_USER => "ASK_USER".data
  | .DONE => "DONE".data
  | .READ_BACKGROUND_PROCESS => "READ_BACKGROUND_PROCESS".data
  | .LIST_BACKGROUND_PROCESSES => "LIST_BACKGROUND_PROCESSES".data
  | .KILL_BACKGROUND_PROCESS => "KILL_BACKGROUND_PROCESS".data

/-! ## Parser state machine (`parseResponse`) -/

/-- The `currentSection` variable of `parseResponse` (`''` initially). -/
inductive Section
  | empty | thoughts | taskList | toolChoice | toolInput
deriving DecidableEq, Repr

/-- A backtick or tilde: the two fence characters the fence regexes
accept in their character class. -/
def isFenceChar (c : Char) : Bool := c = '`' || c = '~'

/-- The fence-tracking variables of `parseResponse`
(`inCodeBlock`, `fenceChar`, `fenceLen`). `fenceChar` is only meaningful
while `inCodeBlock` is set; the source initializes it to the empty string,
modelled by the placeholder `' '`. -/
structure FenceState where
  inCodeBlock : Bool
  fenceChar : Char
  fenceLen : Nat
deriving DecidableEq, Repr

/-- Initial fence state. -/
def FenceState.init : FenceState := ⟨false, ' ', 0⟩

/-- The fence-tracking update of `parseResponse` (source lines 57–79):
the fence regex finds a leading run of 3 or more fence characters;
when no block is open the line opens one, recording the run's first
character and length; when a block is open, the line closes it only if
its first character matches, the run length is at least the recorded
length, and the trimmed line consists solely of fence characters (the
bare-fence regex applied to the trimmed line). -/
def fenceStep (st : FenceState) (line : Str) : FenceState :=
  let run := line.takeWhile isFenceChar
  match run with
  | [] => st
  | c :: rest =>
    if (c :: rest).length < 3 then st
    else if !st.inCodeBlock then
      { inCodeBlock := true, fenceChar := c, fenceLen := (c :: rest).length }
    else
      let t := jsTrim line
      let isClosingFence :=
        c = st.fenceChar && st.fenceLen ≤ (c :: rest).length &&
        (decide (t ≠ []) && t.all isFenceChar)
      if isClosingFence then { st with inCodeBlock := false, fenceLen := 0 }
      else st

/-- Full parser state: the accumulating variables of `parseResponse`. -/
structure PState where
  thoughts : Str
  taskList : List TaskItem
  tools : List ToolCall
  currentSection : Section
  currentTool : Option ToolName
  currentInput : Str
  fence : FenceState
deriving DecidableEq, Repr

/-- Initial parser state. -/
def PState.init : PState :=
  ⟨[], [], [], .empty, none, [], FenceState.init⟩

/-- Helper `finishCurrentTool`: push the pending tool (input trimmed) and clear. -/
def finishCurrentTool (s : PState) : PState :=
  match s.currentTool with
  | none => s
  | some t =>
    { s with
      tools := s.tools ++ [⟨t, jsTrim s.currentInput⟩]
      currentTool := none
      currentInput := [] }

/-- The task-list line regex `/^\[([x~\s])\]\s*(.+)$/i`: a status
character in `{x, X, ~, whitespace}` between brackets, then a nonempty
remainder; the captured text is trimmed. The source compares the raw
status character to `'x'` and `'~'` (so an upper-case `X` falls through
to `pending`). -/
def parseTaskLine (line : Str) : Option TaskItem :=
  match line with
  | '[' :: c :: ']' :: rest =>
    if (c = 'x' || c = 'X' || c = '~' || isJsSpace c) && rest ≠ [] then
      let status : TaskStatus :=
        if c = 'x' then .complete else if c = '~' then .inProgress else .pending
      some ⟨status, jsTrim rest⟩
    else none
  | _ => none

/-- One iteration of the `for (const line of lines)` body of
`parseResponse`: fence tracking first, then header recognition (with the
`toolInput` pragma), then section-content accumulation. -/
def parseLine (s : PState) (line : Str) : PState :=
  let fence := fenceStep s.fence line
  let s := { s with fence := fence }
  let isToolChoiceHeader := "## Tool Choice".data.isPrefixOf line
  let isToolInputHeader := "## Tool Input".data.isPrefixOf line
  let shouldRecognizeHeader :=
    !fence.inCodeBlock ||
      (s.currentSection = .toolInput && (isToolChoiceHeader || isToolInputHeader))
  if shouldRecognizeHeader && "## Thoughts".data.isPrefixOf line then
    let s := finishCurrentTool s
    { s with currentSection := .thoughts, fence := { s.fence with inCodeBlock := false } }
  else if shouldRecognizeHeader && "## Task List".data.isPrefixOf line then
    let s := finishCurrentTool s
    { s with currentSection := .taskList, fence := { s.fence with inCodeBlock := false } }
  else if shouldRecognizeHeader && isToolChoiceHeader then
    let s := finishCurrentTool s
    { s with currentSection := .toolChoice, fence := { s.fence with inCodeBlock := false } }
  else if shouldRecognizeHeader && isToolInputHeader then
    { s with currentSection := .toolInput, fence := { s.fence with inCodeBlock := false } }
  else
    match s.currentSection with
    | .thoughts =>
      { s with thoughts := if s.thoughts = [] then line else s.thoughts ++ '\n' :: line }
    | .taskList =>
      match parseTaskLine line with
      | some item => { s with taskList := s.taskList ++ [item] }
      | none => s
    | .toolChoice =>
      match s.currentTool with
      | some _ => s
      | none =>
        match parseToolName ((jsTrim line).map Char.toUpper) with
        | some t => { s with currentTool := some t }
        | none => s
    | .toolInput =>
      { s with currentInput := if s.currentInput = [] then line else s.currentInput ++ '\n' :: line }
    | .empty => s

/-- Function `parseResponse`: slice from the last `# Agent Response` marker, run
the line state machine, finish the pending tool, and fail when no tool
was accumulated. -/
def parseResponse (fullResponse : Str) : Option ParsedResponse :=
  match lastMarkerIdx "# Agent Response".data fullResponse with
  | none => none
  | some idx =>
    let sect := fullResponse.drop idx
    let fin := finishCurrentTool ((splitLines sect).foldl parseLine PState.init)
    match fin.tools with
    | [] => none
    | t :: _ =>
      some
        { thoughts := jsTrim fin.thoughts
          taskList := fin.taskList
          tools := fin.tools
          raw := sect
          toolChoice := t.toolChoice
          toolInput := t.toolInput }

/-! ## Auxiliary extractors (`src/parser/markdown.ts`) -/

/-- JS `\w` word-character class `[A-Za-z0-9_]`. -/
def isWordChar (c : Char) : Bool :=
  (('a' ≤ c && c ≤ 'z') || ('A' ≤ c && c ≤ 'Z') || ('0' ≤ c && c ≤ '9') || c = '_')

/-- Function `extractPath`: the regex `/^"([^"]+)"|^([^\n]+)/` — a nonempty
double-quoted span at the start, else the first line — and the result is
trimmed (empty when neither alternative matches). -/
def extractPath (input : Str) : Str :=
  let firstLine := input.takeWhile (fun c => c ≠ '\n')
  match input with
  | '"' :: rest =>
    let inner := rest.takeWhile (fun c => c ≠ '"')
    match rest.drop inner.length, inner with
    | '"' :: _, _ :: _ => jsTrim inner
    | _, _ => jsTrim firstLine
  | _ => jsTrim firstLine

/-- Whether a line is matched by the opening-fence pattern of
`extractCodeBlock` (no language argument):
`/^([`~]{3,})\w*\s*$/im` — a leading run of 3+ backticks/tildes, then
word characters, then only whitespace to the end of the line. Returns the
fence character (first of the run) and the run length. -/
def openFenceLine (line : Str) : Option (Char × Nat) :=
  let run := line.takeWhile isFenceChar
  match run with
  | [] => none
  | c :: rest =>
    if (c :: rest).length ≥ 3 &&
        ((line.drop (c :: rest).length).dropWhile isWordChar).all isJsSpace then
      some (c, (c :: rest).length)
    else none

/-- Whether a line is matched by the closing-fence pattern of
`extractCodeBlock`: `` new RegExp(`^${fenceChar}{3,}\s*$`, 'gm') `` —
a run of 3 or more of exactly the opening fence character, then only
whitespace. Note the pattern does not involve the opener's run length. -/
def closeFenceLine (c : Char) (line : Str) : Bool :=
  let run := line.takeWhile (fun d => d = c)
  run.length ≥ 3 && (line.drop run.length).all isJsSpace

/-- A line consisting solely of whitespace. -/
def wsOnlyLine (line : Str) : Bool := line.all isJsSpace

/-- Index of the last element satisfying `p` (the `while exec` scan that
keeps the final match). -/
def lastIdxWhere (p : Str → Bool) : List Str → Option Nat
  | [] => none
  | l :: ls =>
    match lastIdxWhere p ls with
    | some i => some (i + 1)
    | none => if p l then some 0 else none

/-- Function `extractCodeBlock` (no language argument).

The source finds the first line matching the opening-fence pattern, sets
`startIdx` to just past the regex match plus one newline, scans
`remaining = input.slice(startIdx)` for the *last* line matching
`^fenceChar{3,}\s*$`, and returns `remaining.slice(0, lastMatch.index).trimEnd()`
(`null` when either scan fails).

Line-level rendering of the character-level source: because the `\s*$`
of the opening pattern is greedy and multiline, the opening match also
swallows any run of whitespace-only lines directly after the opening
fence line (its end lands on the last end-of-line inside that whitespace,
or past the end of the input when only whitespace remains, in which case
`remaining` is empty and the result is `null`). -/
def extractCodeBlock (input : Str) : Option Str :=
  let lines := splitLines input
  match lines.findIdx? (fun l => (openFenceLine l).isSome) with
  | none => none
  | some i =>
    match openFenceLine (lines.getD i []) with
    | none => none
    | some (c, _) =>
      let body := lines.drop (i + 1)
      let k := (body.takeWhile wsOnlyLine).length
      if k = body.length then none
      else
        let remaining := body.drop k
        match lastIdxWhere (closeFenceLine c) remaining with
        | none => none
        | some j => some (jsTrimEnd (joinLines (remaining.take j)))

/-- Function `extractCommandInput`: the extracted code block if any, else the raw
input. -/
def extractCommandInput (input : Str) : Str :=
  match extractCodeBlock input with
  | some block => block
  | none => input

/-- The closing-fence test as the specification words it: the bare fence
line must additionally have run length at least the opener's (`n`). -/
def closeFenceLineClaimed (c : Char) (n : Nat) (line : Str) : Bool :=
  let run := line.takeWhile (fun d => d = c)
  run.length ≥ 3 && run.length ≥ n && (line.drop run.length).all isJsSpace

/-- Function `extractCodeBlock` as the specification describes it — identical to
the implementation except that the closing scan looks for the last bare
fence line whose run length is greater than or equal to the opener's.
Used to compare the specified behavior with the implemented one. -/
def extractCodeBlockClaimed (input : Str) : Option Str :=
  let lines := splitLines input
  match lines.findIdx? (fun l => (openFenceLine l).isSome) with
  | none => none
  | some i =>
    match openFenceLine (lines.getD i []) with
    | none => none
    | some (c, n) =>
      let body := lines.drop (i + 1)
      let k := (body.takeWhile wsOnlyLine).length
      if k = body.length then none
      else
        let remaining := body.drop k
        match lastIdxWhere (closeFenceLineClaimed c n) remaining with
        | none => none
        | some j => some (jsTrimEnd (joinLines (remaining.take j)))

/-! ## Tool dispatcher (`src/tools/index.ts`), `WRITE_FILE` path -/

/-- JS truthiness of `string | null`: falsy exactly for `null` and the
empty string (the `!content` test in the `WRITE_FILE` branch). -/
def jsFalsyStr : Option Str → Bool
  | none => true
  | some [] => true
  | some (_ :: _) => false

/-- Function `executeTool`. Filesystem, shell and interaction effects are
abstracted: the function returns the result string together with the
`writeFile` call it performs, if any (`some (path, content)`); branches
other than `WRITE_FILE` delegate to the `other` oracle, which stands for
the remaining tool implementations, and perform no `writeFile` call. -/
def executeTool (other : ToolName → Str → Str) (tool : ToolName) (input : Str) :
    Str × Option (Str × Str) :=
  let path := extractPath input
  match tool with
  | .WRITE_FILE =>
    let content := extractCodeBlock input
    if jsFalsyStr content then ("ERROR: No code block found for WRITE_FILE".data, none)
    else
      ("File written: ".data ++ path, some (path, content.getD []))
  | t => (other t input, none)

/-! ## Sessions (`src/sessions/index.ts`) -/

/-- Message roles. -/
inductive Role
  | system | user | assistant
deriving DecidableEq, Repr

/-- Structure `Message` from the source. -/
structure Message where
  role : Role
  content : Str
deriving DecidableEq, Repr

/-- Structure `Compression` from the source. -/
structure Compression where
  timestamp : Str
  tokensBefore : Nat
  tokensAfter : Nat
deriving DecidableEq, Repr

/-- The parts of `Session` the agent loop mutates (identifiers,
timestamps and the working directory are opaque to the claims). -/
structure Session where
  originalPrompt : Str
  taskList : List TaskItem
  history : List Message
  compressions : List Compression
deriving DecidableEq, Repr

/-- Function `estimateTokens`: `Math.ceil(totalContentLength / 4)`. -/
def estimateTokens (messages : List Message) : Nat :=
  ((messages.map (fun m => m.content.length)).sum + 3) / 4

/-! ## Context compression (`src/agent/compress.ts`) -/

/-- Function `needsCompression`. -/
def needsCompression (maxContextTokens : Nat) (messages : List Message) : Bool :=
  estimateTokens messages ≥ maxContextTokens

/-- Result of `compressContext`. -/
structure CompressResult where
  messages : List Message
  tokensBefore : Nat
  tokensAfter : Nat
  session : Session
deriving Repr

/-- Function `compressContext`: build the replacement two-message history (the
caller-supplied system prompt and the combined summary/original-request
user message) and append one compression record to the session. The
summary returned by the model call and the `new Date().toISOString()`
timestamp are oracle parameters. -/
def compressContext (session : Session) (systemPrompt summary timestamp : Str) :
    CompressResult :=
  let tokensBefore := estimateTokens session.history
  let compressedMessages : List Message :=
    [ ⟨.system, systemPrompt⟩,
      ⟨.user,
        "[CONTEXT SUMMARY]\n\n".data ++ summary ++
          "\n\n[ORIGINAL REQUEST]\n\n".data ++ session.originalPrompt⟩ ]
  let tokensAfter := estimateTokens compressedMessages
  { messages := compressedMessages
    tokensBefore := tokensBefore
    tokensAfter := tokensAfter
    session :=
      { session with
        compressions :=
          session.compressions ++ [⟨timestamp, tokensBefore, tokensAfter⟩] } }

/-! ## Audit agent (`src/agent/audit.ts`), the `DONE` branch -/

/-- JS `String.prototype.toLowerCase` (ASCII). -/
def jsLower (s : Str) : Str := s.map Char.toLower

/-- JS `String.prototype.includes`: `needle` occurs as a contiguous
substring of `hay`. -/
def strIncludes (needle : Str) : Str → Bool
  | [] => needle.isPrefixOf []
  | c :: tl => needle.isPrefixOf (c :: tl) || strIncludes needle tl

/-- Structure `AuditResult` from the source. -/
structure AuditResult where
  passed : Bool
  feedback : Str
deriving DecidableEq, Repr

/-- The `case 'DONE'` branch of `runAudit`:
`feedback = parsed.toolInput || parsed.thoughts` (JS `||` falls back on
the empty string) and
`passed = !feedback.toLowerCase().includes('fail')`. -/
def auditDoneResult (parsed : ParsedResponse) : AuditResult :=
  let feedback := if parsed.toolInput = [] then parsed.thoughts else parsed.toolInput
  ⟨!(strIncludes "fail".data (jsLower feedback)), feedback⟩

/-- One audit-agent response whose parse succeeds with first tool `DONE`
produces the verdict of `auditDoneResult`; other cases (unparseable
responses, non-`DONE` tools) are outside this model. -/
def auditVerdictOfResponse (response : Str) : Option AuditResult :=
  match parseResponse response with
  | none => none
  | some parsed =>
    if parsed.toolChoice = .DONE then some (auditDoneResult parsed) else none

/-! ## Command execution (`src/tools/command.ts`)

`executeCommand` wraps a spawned process in a promise resolved by one of
three callbacks: the timeout (which promotes the process to the
background registry), the `close` handler, and the `error` handler. The
callbacks are modelled as events applied to an explicit state; `data`
events accumulate output. -/

/-- The callback events of one `executeCommand` invocation. `closeEvt`
carries the exit code (`null` for a signal-terminated process). -/
inductive CmdEvent
  | dataEvt (chunk : Str)
  | timeoutFire
  | closeEvt (code : Option Int)
  | errorEvt (msg : Str)
deriving DecidableEq, Repr

/-- The mutable state of one `executeCommand` invocation: the `output`
buffer, the `resolved` flag, the promise's value once resolved, whether
`clearTimeout` has run, whether the timeout promoted the process, and the
background-registry entry's recorded exit code and output (set by the
inner `close` handler registered at promotion). -/
structure CmdState where
  output : Str
  resolved : Bool
  result : Option Str
  timeoutCleared : Bool
  promoted : Bool
  registryExitCode : Option (Option Int)
  registryOutput : Str
deriving DecidableEq, Repr

/-- State at the start of an invocation. -/
def CmdState.init : CmdState :=
  ⟨[], false, none, false, false, none, []⟩

/-- Render of an `Int` for the `Exit code <code>` message (`null` when
the close callback received no code). -/
def exitCodeStr : Option Int → Str
  | none => "null".data
  | some n => (toString n).data

/-- One callback firing, translated handler by handler from
`executeCommand`. `timeoutSeconds` is `config.commandTimeout`; `procId`
is the id `genId()` allocates at promotion. -/
def cmdStep (timeoutSeconds : Nat) (procId : Str) (s : CmdState) : CmdEvent → CmdState
  | .dataEvt chunk => { s with output := s.output ++ chunk }
  | .timeoutFire =>
    if s.timeoutCleared then s
    else if s.resolved then s
    else
      { s with
        resolved := true
        promoted := true
        registryOutput := s.output
        result := some ("Command timed out after ".data ++ (toString timeoutSeconds).data ++
          "s. Backgrounded as: ".data ++ procId) }
  | .closeEvt code =>
    -- the inner close handler registered at promotion records the exit
    -- code and output in the registry entry; the outer handler clears
    -- the timeout and resolves unless already resolved
    let s := if s.promoted then
        { s with registryExitCode := some code, registryOutput := s.output } else s
    let s := { s with timeoutCleared := true }
    if s.resolved then s
    else
      { s with
        resolved := true
        result := some (if code = some 0 then
            (if s.output = [] then "(no output)".data else s.output)
          else "Exit code ".data ++ exitCodeStr code ++ '\n' :: s.output) }
  | .errorEvt msg =>
    let s := { s with timeoutCleared := true }
    if s.resolved then s
    else { s with resolved := true, result := some ("Error: ".data ++ msg) }

/-- A whole invocation: the initial state followed by the events that
fire, in order. -/
def runCmdEvents (timeoutSeconds : Nat) (procId : Str) (events : List CmdEvent) : CmdState :=
  events.foldl (cmdStep timeoutSeconds procId) CmdState.init

/-! ## Agent loop (`src/agent/loop.ts`)

The loop's interactions with the outside world — the streamed completion,
tool side effects, the reflection ("thinking") model call, and the audit
sub-agent — are supplied by a per-iteration oracle. Everything else
(history bookkeeping, retries, compression, the `DONE` protocol, loop
accounting) is translated statement by statement from `runAgentLoop`. -/

/-- The configuration fields the loop reads (`maxRetries` is already the
mode-selected value `automated ? cfg.maxRetriesAutomated : cfg.maxRetries`). -/
structure LoopConfig where
  maxLoops : Nat
  maxRetries : Nat
  maxContextTokens : Nat
deriving Repr

/-- Result of one `streamCompletion` attempt in the main loop. -/
inductive ApiOutcome
  | success (response : Str)
  | failure (errMsg : Str)

/-- The oracle for one loop iteration: the API response, the result each
`executeTool` call would produce (a thrown exception already folded into
an `ERROR: <message>` string, as the loop's `catch` does), the thinking
flag and text, the audit verdict with the number of model calls the audit
sub-agent makes, and the compression summary/timestamp. -/
structure TurnOracle where
  api : ApiOutcome
  exec : ToolCall → Str
  thinkingEnabled : Bool
  thinkingText : Str
  auditPassed : Bool
  auditFeedback : Str
  auditCalls : Nat
  compressionSummary : Str
  compressionTimestamp : Str

/-- The tool-execution phase of one iteration (source lines 69–99):
execute tools in order; on `DONE`, record its input and break; otherwise
push the formatted result and break when it starts with `ERROR`.
Returns `(toolResults, hitDone, doneSummary)`. -/
def runTools (exec : ToolCall → Str) : List ToolCall → List Str × Bool × Str
  | [] => ([], false, [])
  | t :: rest =>
    if t.toolChoice = .DONE then ([], true, t.toolInput)
    else
      let r := exec t
      let entry := '[' :: (toolNameStr t.toolChoice ++ "]: ".data ++ r)
      if "ERROR".data.isPrefixOf r then ([entry], false, [])
      else
        let res := runTools exec rest
        (entry :: res.1, res.2.1, res.2.2)

/-- Mutable loop state: the session plus the `retries` counter, and an
instrumentation counter of every `streamCompletion` invocation made so
far (main loop, compression, thinking, audit sub-agent). -/
structure LoopState where
  session : Session
  retries : Nat
  modelCalls : Nat
deriving Repr

/-- How `runAgentLoop` ends: audit pass (normal return), a thrown error
(propagated out of the loop), or falling out of the `while` at the loop
cap (also a normal return, after printing the cap message). -/
inductive LoopOutcome
  | auditPass
  | fatal (msg : Str)
  | loopCap (msg : Str)
deriving DecidableEq, Repr

/-- The message printed when the `while` condition exhausts `maxLoops`. -/
def capMessage (cfg : LoopConfig) : Str :=
  "\n  Max loops (".data ++ (toString cfg.maxLoops).data ++ ") reached. Stopping.\n".data

/-- The corrective user message injected after a parse failure. -/
def parseComplaint : Str :=
  ("ERROR: Your response was not in the correct format. Please use the exact format " ++
    "specified with # Agent Response, ## Thoughts, ## Task List, ## Tool Choice, " ++
    "and ## Tool Input sections.").data

/-- Append messages to the session history. -/
def pushHistory (st : LoopState) (ms : List Message) : LoopState :=
  { st with session := { st.session with history := st.session.history ++ ms } }

/-- The compression check at the top of each iteration: when the token
estimate reaches the ceiling, call the compressor (one model call) and
install the returned messages as the new history. -/
def compressStep (cfg : LoopConfig) (systemPrompt : Str) (o : TurnOracle)
    (st : LoopState) : LoopState :=
  if needsCompression cfg.maxContextTokens st.session.history then
    let r := compressContext st.session systemPrompt o.compressionSummary o.compressionTimestamp
    { st with
      session := { r.session with history := r.messages }
      modelCalls := st.modelCalls + 1 }
  else st

/-- The body of one `while` iteration after the compression check: the
model call, parse, tool execution, thinking and audit handling. Returns
the state after the iteration and `some outcome` when the iteration
returns from or throws out of the loop (`none` = the loop continues). -/
def loopMain (cfg : LoopConfig) (o : TurnOracle) (st : LoopState) :
    LoopState × Option LoopOutcome :=
  match o.api with
  | .failure msg =>
    -- `catch`: count a retry; rethrow at the cap, else continue
    let st := { st with modelCalls := st.modelCalls + 1, retries := st.retries + 1 }
    if st.retries ≥ cfg.maxRetries then (st, some (.fatal msg)) else (st, none)
  | .success response =>
    let st := { st with modelCalls := st.modelCalls + 1 }
    match parseResponse response with
    | none =>
      -- parse failure: raw response + corrective message, count a retry
      let st := pushHistory st [⟨.assistant, response⟩, ⟨.user, parseComplaint⟩]
      let st := { st with retries := st.retries + 1 }
      if st.retries ≥ cfg.maxRetries then
        (st, some (.fatal "Max retries exceeded on parse failures".data))
      else (st, none)
    | some parsed =>
      let st := { st with retries := 0 }
      let st := pushHistory st [⟨.assistant, parsed.raw⟩]
      let st := { st with session := { st.session with taskList := parsed.taskList } }
      let res := runTools o.exec parsed.tools
      let toolResults := res.1
      let hitDone := res.2.1
      let st :=
        if toolResults ≠ [] then
          let st := pushHistory st
            [⟨.user, "Tool results:\n".data ++ joinSep "\n\n".data toolResults⟩]
          if o.thinkingEnabled && !hitDone then
            let st := { st with modelCalls := st.modelCalls + 1 }
            if o.thinkingText ≠ [] then
              pushHistory st [⟨.assistant, "[Internal Reasoning]\n".data ++ o.thinkingText⟩]
            else st
          else st
        else st
      if hitDone then
        let st := { st with modelCalls := st.modelCalls + o.auditCalls }
        if o.auditPassed then (st, some .auditPass)
        else
          (pushHistory st
            [⟨.user, "AUDIT FAILED. Please address the following issues:\n\n".data ++
              o.auditFeedback⟩], none)
      else (st, none)

/-- One iteration of the `while` body of `runAgentLoop`: the compression
check, then the rest of the body. -/
def loopIter (cfg : LoopConfig) (systemPrompt : Str) (o : TurnOracle) (st : LoopState) :
    LoopState × Option LoopOutcome :=
  loopMain cfg o (compressStep cfg systemPrompt o st)

/-- The `while (loops++ < config.maxLoops)` driver: at most `fuel`
iterations remain; falling out produces the loop-cap outcome. -/
def runLoopAux (cfg : LoopConfig) (systemPrompt : Str) (oracle : Nat → TurnOracle) :
    Nat → Nat → LoopState → LoopState × LoopOutcome
  | 0, _, st => (st, .loopCap (capMessage cfg))
  | fuel + 1, idx, st =>
    match loopIter cfg systemPrompt (oracle idx) st with
    | (st', some out) => (st', out)
    | (st', none) => runLoopAux cfg systemPrompt oracle fuel (idx + 1) st'

/-- Function `runAgentLoop`: ensure the history starts with a system prompt, then
loop up to `maxLoops` iterations. -/
def runAgentLoop (cfg : LoopConfig) (systemPrompt : Str) (oracle : Nat → TurnOracle)
    (session : Session) : LoopState × LoopOutcome :=
  let session :=
    match session.history with
    | ⟨.system, _⟩ :: _ => session
    | _ => { session with history := ⟨.system, systemPrompt⟩ :: session.history }
  runLoopAux cfg systemPrompt oracle cfg.maxLoops 0 ⟨session, 0, 0⟩

/-- The exit code of the `dev` run action (`src/context/index.ts`,
`program.action`): `process.exit(1)` fires only when `runAgentLoop`
throws; any normal return — audit pass or loop cap — ends the process
with code 0. -/
def runExitCode : LoopOutcome → Nat
  | .fatal _ => 1
  | .auditPass => 0
  | .loopCap _ => 0

/-! # Theorems -/

/-! ## C2: `DONE` is terminal within a response -/

/-- The formatted `"[<TOOL>]: <result>"` entry for one executed tool. -/
def toolResultEntry (exec : ToolCall → Str) (t : ToolCall) : Str :=
  '[' :: (toolNameStr t.toolChoice ++ "]: ".data ++ exec t)

/-- C2. Within one parsed response, once the tool walk reaches a `DONE`,
its input becomes the completion summary and nothing listed after the
`DONE` is executed: the execution of `pre ++ [d] ++ post` is literally
the execution of `pre ++ [d]`, independent of `post`; and when every
tool before the `DONE` is a non-`DONE` tool whose result does not start
with `ERROR` (so the walk does reach the `DONE`), the outcome is exactly
the results of `pre`, the done flag, and `d`'s input as summary. -/
theorem done_terminates_tool_sequence (exec : ToolCall → Str) (pre post : List ToolCall)
    (d : ToolCall) (hd : d.toolChoice = .DONE) :
    runTools exec (pre ++ d :: post) = runTools exec (pre ++ [d]) ∧
    ((∀ t ∈ pre, t.toolChoice ≠ .DONE ∧ "ERROR".data.isPrefixOf (exec t) = false) →
      runTools exec (pre ++ d :: post) = (pre.map (toolResultEntry exec), true, d.toolInput)) := by
  induction pre with
  | nil =>
    constructor
    · simp [runTools, hd]
    · intro _
      simp [runTools, hd]
  | cons t pre ih =>
    rcases ih with ⟨ih1, ih2⟩
    by_cases hdone : t.toolChoice = .DONE
    · constructor
      · simp [runTools, hdone]
      · intro h; exact absurd hdone (h t (by simp)).1
    · cases herr : "ERROR".data.isPrefixOf (exec t) with
      | true =>
        constructor
        · simp [runTools, hdone, herr]
        · intro h
          have hcontra := (h t (by simp)).2
          rw [herr] at hcontra
          cases hcontra
      | false =>
        have hrw1 : runTools exec ((t :: pre) ++ d :: post) =
            (toolResultEntry exec t :: (runTools exec (pre ++ d :: post)).1,
              (runTools exec (pre ++ d :: post)).2.1,
              (runTools exec (pre ++ d :: post)).2.2) := by
          simp [runTools, hdone, herr, toolResultEntry]
        have hrw2 : runTools exec ((t :: pre) ++ [d]) =
            (toolResultEntry exec t :: (runTools exec (pre ++ [d])).1,
              (runTools exec (pre ++ [d])).2.1,
              (runTools exec (pre ++ [d])).2.2) := by
          simp [runTools, hdone, herr, toolResultEntry]
        constructor
        · rw [hrw1, hrw2, ih1]
        · intro h
          have hrest : ∀ u ∈ pre, u.toolChoice ≠ .DONE ∧
              "ERROR".data.isPrefixOf (exec u) = false := by
            intro u hu; exact h u (by simp [hu])
          rw [hrw1, ih2 hrest]
          simp

/-- Witness for C2 at a concrete tool sequence: a `COMMAND` before the
`DONE` runs, the `READ_FILE` after it does not. -/
theorem done_terminates_tool_sequence_witness :
    runTools (fun _ => "ok".data)
        [⟨.COMMAND, "ls".data⟩, ⟨.DONE, "all done".data⟩, ⟨.READ_FILE, "x".data⟩] =
      ([⟨.COMMAND, "ls".data⟩].map (toolResultEntry (fun _ => "ok".data)), true, "all done".data) :=
  (done_terminates_tool_sequence (fun _ => "ok".data) [⟨.COMMAND, "ls".data⟩]
      [⟨.READ_FILE, "x".data⟩] ⟨.DONE, "all done".data⟩ rfl).2
    (by decide)

/-! ## C9: `executeCommand` resolves exactly once -/

/-- Once the invocation's state is resolved, a single further event
changes neither the promise's value nor the flag. -/
theorem cmdStep_resolved_frozen (tmo : Nat) (pid : Str) (s : CmdState)
    (hres : s.resolved = true) (e : CmdEvent) :
    (cmdStep tmo pid s e).result = s.result ∧ (cmdStep tmo pid s e).resolved = true := by
  cases e with
  | dataEvt chunk => simp [cmdStep, hres]
  | timeoutFire =>
    cases ht : s.timeoutCleared <;> simp [cmdStep, hres, ht]
  | closeEvt code =>
    cases hp : s.promoted <;> simp [cmdStep, hres, hp]
  | errorEvt msg => simp [cmdStep, hres]

/-- C9. Every `executeCommand` invocation resolves at most once: from
any resolved state (normal exit, spawn error, or timeout promotion),
every later sequence of close, error, timeout and data events leaves the
promise's result unchanged and the resolved flag set. -/
theorem executeCommand_single_resolution (tmo : Nat) (pid : Str) (s : CmdState)
    (hres : s.resolved = true) (events : List CmdEvent) :
    (events.foldl (cmdStep tmo pid) s).result = s.result ∧
    (events.foldl (cmdStep tmo pid) s).resolved = true := by
  induction events generalizing s with
  | nil => exact ⟨rfl, hres⟩
  | cons e rest ih =>
    have h1 := cmdStep_resolved_frozen tmo pid s hres e
    have h2 := ih (cmdStep tmo pid s e) h1.2
    exact ⟨h2.1.trans h1.1, h2.2⟩

/-- Witness for C9: a concrete invocation promoted by the timeout keeps
its promoted result through a subsequent close, a stale timeout and an
error event. -/
theorem executeCommand_single_resolution_witness :
    (([CmdEvent.closeEvt (some 0), CmdEvent.timeoutFire,
        CmdEvent.errorEvt "boom".data]).foldl (cmdStep 30 "proc_1".data)
          (cmdStep 30 "proc_1".data CmdState.init .timeoutFire)).result =
      (cmdStep 30 "proc_1".data CmdState.init .timeoutFire).result ∧
    (([CmdEvent.closeEvt (some 0), CmdEvent.timeoutFire,
        CmdEvent.errorEvt "boom".data]).foldl (cmdStep 30 "proc_1".data)
          (cmdStep 30 "proc_1".data CmdState.init .timeoutFire)).resolved = true :=
  executeCommand_single_resolution 30 "proc_1".data
    (cmdStep 30 "proc_1".data CmdState.init .timeoutFire) (by decide)
    [CmdEvent.closeEvt (some 0), CmdEvent.timeoutFire, CmdEvent.errorEvt "boom".data]

/-! ## C10: `WRITE_FILE` with an empty extracted code block -/

/-- C10. An input whose extracted code block is the empty string is
treated by the `WRITE_FILE` branch of `executeTool` exactly like an
input with no code block at all: the tool returns
`ERROR: No code block found for WRITE_FILE` and performs no write. -/
theorem writefile_empty_block (other : ToolName → Str → Str) (input : Str)
    (h : extractCodeBlock input = some [] ∨ extractCodeBlock input = none) :
    executeTool other .WRITE_FILE input =
      ("ERROR: No code block found for WRITE_FILE".data, none) := by
  rcases h with h | h <;> simp [executeTool, h, jsFalsyStr]

/-- Witness for C10: the concrete input consisting of an opening and a
closing fence with nothing between extracts an empty code block, and
`WRITE_FILE` rejects it without writing. -/
theorem writefile_empty_block_witness :
    executeTool (fun _ _ => []) .WRITE_FILE "```\n```".data =
      ("ERROR: No code block found for WRITE_FILE".data, none) :=
  writefile_empty_block (fun _ _ => []) "```\n```".data (Or.inl (by decide))

/-! ## C7: compression replaces the history -/

/-- C7. `compressContext` produces exactly two messages — the
caller-supplied system prompt and the combined summary/original-request
user message with the original prompt embedded verbatim — and appends
exactly one `{timestamp, tokensBefore, tokensAfter}` record to the
session; the loop's compression branch installs exactly these two
messages as the new history. -/
theorem compression_replaces_history (session : Session)
    (systemPrompt summary timestamp : Str) :
    (compressContext session systemPrompt summary timestamp).messages =
      [⟨.system, systemPrompt⟩,
       ⟨.user, "[CONTEXT SUMMARY]\n\n".data ++ summary ++
          "\n\n[ORIGINAL REQUEST]\n\n".data ++ session.originalPrompt⟩] ∧
    (compressContext session systemPrompt summary timestamp).messages.length = 2 ∧
    (compressContext session systemPrompt summary timestamp).session.compressions =
      session.compressions ++
        [⟨timestamp, estimateTokens session.history,
          estimateTokens (compressContext session systemPrompt summary timestamp).messages⟩] ∧
    (∀ cfg o st, st.session = session →
      o.compressionSummary = summary → o.compressionTimestamp = timestamp →
      needsCompression cfg.maxContextTokens session.history = true →
      (compressStep cfg systemPrompt o st).session.history =
        (compressContext session systemPrompt summary timestamp).messages ∧
      (compressStep cfg systemPrompt o st).session.compressions =
        (compressContext session systemPrompt summary timestamp).session.compressions) := by
  refine ⟨rfl, rfl, rfl, ?_⟩
  intro cfg o st hst hsum hts hneed
  subst hst hsum hts
  simp [compressStep, hneed]

/-- Witness for C7: a concrete over-budget session is compressed to the
two-message history and gains one compression record. -/
theorem compression_replaces_history_witness :
    (compressStep ⟨5, 3, 1⟩ "sys".data
        ⟨.failure [], fun _ => [], false, [], false, [], 1, "sum".data, "ts".data⟩
        ⟨⟨"task".data, [], [⟨.user, "abcdefgh".data⟩], []⟩, 0, 0⟩).session.history =
      (compressContext ⟨"task".data, [], [⟨.user, "abcdefgh".data⟩], []⟩
        "sys".data "sum".data "ts".data).messages ∧
    (compressStep ⟨5, 3, 1⟩ "sys".data
        ⟨.failure [], fun _ => [], false, [], false, [], 1, "sum".data, "ts".data⟩
        ⟨⟨"task".data, [], [⟨.user, "abcdefgh".data⟩], []⟩, 0, 0⟩).session.compressions =
      (compressContext ⟨"task".data, [], [⟨.user, "abcdefgh".data⟩], []⟩
        "sys".data "sum".data "ts".data).session.compressions :=
  (compression_replaces_history ⟨"task".data, [], [⟨.user, "abcdefgh".data⟩], []⟩
      "sys".data "sum".data "ts".data).2.2.2 ⟨5, 3, 1⟩
    ⟨.failure [], fun _ => [], false, [], false, [], 1, "sum".data, "ts".data⟩
    ⟨⟨"task".data, [], [⟨.user, "abcdefgh".data⟩], []⟩, 0, 0⟩ rfl rfl rfl (by decide)

/-! ## C8: the audit `DONE` verdict -/

/-- C8, corrected: the audit verdict for a parsed response whose first
tool is `DONE` is PASS iff the *feedback* text — the `DONE` input, or
the thoughts when the input is empty — does not contain the
case-insensitive substring `fail`. -/
theorem audit_done_verdict (response : Str) (parsed : ParsedResponse)
    (hp : parseResponse response = some parsed) (hd : parsed.toolChoice = .DONE) :
    auditVerdictOfResponse response =
      some ⟨!(strIncludes "fail".data
          (jsLower (if parsed.toolInput = [] then parsed.thoughts else parsed.toolInput))),
        if parsed.toolInput = [] then parsed.thoughts else parsed.toolInput⟩ := by
  simp [auditVerdictOfResponse, hp, hd, auditDoneResult]

/-- Witness for C8's corrected claim at a concrete passing response. -/
theorem audit_done_verdict_witness :
    auditVerdictOfResponse
        ("# Agent Response\n## Tool Choice\nDONE\n## Tool Input\nAll checks passed").data =
      some ⟨true, "All checks passed".data⟩ := by
  have h := audit_done_verdict
    ("# Agent Response\n## Tool Choice\nDONE\n## Tool Input\nAll checks passed").data
    { thoughts := []
      taskList := []
      tools := [⟨.DONE, "All checks passed".data⟩]
      raw := ("# Agent Response\n## Tool Choice\nDONE\n## Tool Input\nAll checks passed").data
      toolChoice := .DONE
      toolInput := "All checks passed".data } (by decide) rfl
  rw [h]
  decide

/-- Counterexample for C8 as stated: a response whose `DONE` input is
*empty* while its thoughts contain `fail`. The claimed rule (PASS iff
the DONE input lacks `fail`) predicts PASS, but the code falls back to
the thoughts and returns FAIL. -/
theorem audit_done_verdict_counterexample :
    (parseResponse
        ("# Agent Response\n## Thoughts\nThe tests fail\n## Tool Choice\nDONE\n## Tool Input").data).map
      (fun p => (p.toolChoice, p.toolInput)) = some (.DONE, []) ∧
    strIncludes "fail".data (jsLower []) = false ∧
    auditVerdictOfResponse
        ("# Agent Response\n## Thoughts\nThe tests fail\n## Tool Choice\nDONE\n## Tool Input").data =
      some ⟨false, "The tests fail".data⟩ := by
  decide

/-! ## Prefix helpers -/

theorem isPrefixOf_exists_append {p l : Str} (h : p.isPrefixOf l = true) :
    ∃ t, l = p ++ t := by
  induction p generalizing l with
  | nil => exact ⟨l, rfl⟩
  | cons a as ih =>
    cases l with
    | nil => simp [List.isPrefixOf] at h
    | cons b bs =>
      simp only [List.isPrefixOf, Bool.and_eq_true, beq_iff_eq] at h
      obtain ⟨t, ht⟩ := ih h.2
      exact ⟨t, by rw [h.1, List.cons_append, ← ht]⟩

theorem isPrefixOf_append_self (p t : Str) : p.isPrefixOf (p ++ t) = true := by
  induction p with
  | nil => simp [List.isPrefixOf]
  | cons a as ih => simp [List.isPrefixOf, ih]

/-! ## C6: the `toolInput` header pragma -/

/-- A line starting with `#` is never a fence line, so fence tracking
ignores it. -/
theorem fenceStep_hash (st : FenceState) (rest : Str) : fenceStep st ('#' :: rest) = st := rfl

/-- C6. While the current section is `toolInput` and fence tracking
believes the parser is inside an unclosed code block, a line starting
with `## Tool Choice` is still honored as a section boundary (finalizing
the pending tool and entering the `toolChoice` section), a line starting
with `## Tool Input` likewise re-enters the `toolInput` section, and in
both cases the fence state is reset (`inCodeBlock := false`); the line is
not appended to the tool input. -/
theorem toolinput_header_pragma (s : PState) (line : Str)
    (hsec : s.currentSection = .toolInput) (hblock : s.fence.inCodeBlock = true) :
    ("## Tool Choice".data.isPrefixOf line = true →
      parseLine s line =
        { finishCurrentTool s with
            currentSection := .toolChoice
            fence := { s.fence with inCodeBlock := false } }) ∧
    ("## Tool Input".data.isPrefixOf line = true →
      parseLine s line =
        { s with
            currentSection := .toolInput
            fence := { s.fence with inCodeBlock := false } }) := by
  constructor
  · intro h
    obtain ⟨rest, hrest⟩ := isPrefixOf_exists_append h
    subst hrest
    have hfence : fenceStep s.fence ("## Tool Choice".data ++ rest) = s.fence := by
      simp [fenceStep, isFenceChar]
    have hnotThoughts :
        "## Thoughts".data.isPrefixOf ("## Tool Choice".data ++ rest) = false := rfl
    have hnotTask :
        "## Task List".data.isPrefixOf ("## Tool Choice".data ++ rest) = false := rfl
    have hchoice :
        "## Tool Choice".data.isPrefixOf ("## Tool Choice".data ++ rest) = true :=
      isPrefixOf_append_self _ _
    cases hct : s.currentTool with
    | none =>
      simp [parseLine, fenceStep_hash, hsec, hblock, hchoice, hnotThoughts, hnotTask,
        finishCurrentTool, hct]
    | some t =>
      simp [parseLine, fenceStep_hash, hsec, hblock, hchoice, hnotThoughts, hnotTask,
        finishCurrentTool, hct]
  · intro h
    obtain ⟨rest, hrest⟩ := isPrefixOf_exists_append h
    subst hrest
    have hfence : fenceStep s.fence ("## Tool Input".data ++ rest) = s.fence := by
      simp [fenceStep, isFenceChar]
    have hnotThoughts :
        "## Thoughts".data.isPrefixOf ("## Tool Input".data ++ rest) = false := rfl
    have hnotTask :
        "## Task List".data.isPrefixOf ("## Tool Input".data ++ rest) = false := rfl
    have hnotChoice :
        "## Tool Choice".data.isPrefixOf ("## Tool Input".data ++ rest) = false := rfl
    have hinput :
        "## Tool Input".data.isPrefixOf ("## Tool Input".data ++ rest) = true :=
      isPrefixOf_append_self _ _
    simp [parseLine, fenceStep_hash, hsec, hblock, hinput, hnotThoughts, hnotTask, hnotChoice]

/-- Witness for C6 at a concrete parser state inside an unclosed fence. -/
theorem toolinput_header_pragma_witness :
    parseLine
        ⟨[], [], [], .toolInput, some .WRITE_FILE, "\"a.md\"\n````md\ntext".data,
          ⟨true, '`', 4⟩⟩
        "## Tool Choice".data =
      { finishCurrentTool
          ⟨[], [], [], .toolInput, some .WRITE_FILE, "\"a.md\"\n````md\ntext".data,
            ⟨true, '`', 4⟩⟩ with
          currentSection := .toolChoice
          fence := ⟨false, '`', 4⟩ } :=
  (toolinput_header_pragma
      ⟨[], [], [], .toolInput, some .WRITE_FILE, "\"a.md\"\n````md\ntext".data,
        ⟨true, '`', 4⟩⟩
      "## Tool Choice".data rfl rfl).1 (by decide)

/-! ## C4: closing-fence recognition -/

/-- C4, corrected: with a block open on fence character `c` and recorded
length `n`, a line closes it *iff* its leading fence run is at least 3
long, starts with `c`, has run length at least `n`, and the trimmed line
is a nonempty string of fence characters only. Hence an inner fence of
shorter run length, or one carrying an info string, does not close the
outer block — but an equal-length *bare* fence does close it. -/
theorem fence_close_characterization (c : Char) (n : Nat) (line : Str) :
    (fenceStep ⟨true, c, n⟩ line).inCodeBlock = false ↔
      (3 ≤ (line.takeWhile isFenceChar).length ∧
       (line.takeWhile isFenceChar).head? = some c ∧
       n ≤ (line.takeWhile isFenceChar).length ∧
       jsTrim line ≠ [] ∧
       (jsTrim line).all isFenceChar = true) := by
  cases hrun : line.takeWhile isFenceChar with
  | nil => simp [fenceStep, hrun]
  | cons a rest =>
    by_cases hlen : (a :: rest).length < 3
    · simp only [fenceStep, hrun, if_pos hlen]
      constructor
      · intro h; exact absurd h (by simp)
      · rintro ⟨h3, -⟩; omega
    · simp only [fenceStep, hrun, if_neg hlen, Bool.not_true, Bool.false_eq_true,
        if_false, List.head?_cons]
      split
      · next hclose =>
        simp only [Bool.and_eq_true, decide_eq_true_eq] at hclose
        obtain ⟨⟨hac, hn⟩, hne, hall⟩ := hclose
        subst hac
        constructor
        · intro _
          exact ⟨by omega, rfl, hn, hne, hall⟩
        · intro _
          rfl
      · next hclose =>
        constructor
        · intro h; exact absurd h (by simp)
        · rintro ⟨h3, hhead, hn, hne, hall⟩
          exact absurd (by
            simp only [Bool.and_eq_true, decide_eq_true_eq]
            exact ⟨⟨by injection hhead, hn⟩, hne, hall⟩) hclose


/-- Counterexample for C4 as stated: the claim says an inner nested
fence of equal length, when bare, does not close the outer block; but
with a 4-backtick block open, a bare 4-backtick line does close it. -/
theorem fence_close_equal_bare_counterexample :
    (fenceStep ⟨true, '`', 4⟩ "````".data).inCodeBlock = false := by decide

/-! ## C1: reaching the loop cap -/

/-- The post-compression iteration body never produces the loop-cap
outcome: it either continues, returns on audit pass, or throws (fatal). -/
theorem loopMain_not_loopCap (cfg : LoopConfig) (o : TurnOracle)
    (st : LoopState) (m : Str) : (loopMain cfg o st).2 ≠ some (.loopCap m) := by
  obtain ⟨api, exec, te, tt, ap, af, ac, cs, ct⟩ := o
  cases api with
  | failure msg =>
    simp only [loopMain]
    split <;> simp
  | success response =>
    simp only [loopMain]
    cases hp : parseResponse response with
    | none =>
      simp only [hp]
      split <;> simp
    | some parsed =>
      simp only [hp]
      split <;> split <;> simp

/-- One loop iteration never produces the loop-cap outcome; the cap
outcome arises only from the `while` condition running out. -/
theorem loopIter_not_loopCap (cfg : LoopConfig) (sys : Str) (o : TurnOracle)
    (st : LoopState) (m : Str) : (loopIter cfg sys o st).2 ≠ some (.loopCap m) :=
  loopMain_not_loopCap cfg o (compressStep cfg sys o st) m

/-- Falling out of `runLoopAux` with the cap outcome always carries the
cap message. -/
theorem runLoopAux_loopCap_msg (cfg : LoopConfig) (sys : Str) (oracle : Nat → TurnOracle) :
    ∀ fuel idx st m, (runLoopAux cfg sys oracle fuel idx st).2 = .loopCap m →
      m = capMessage cfg := by
  intro fuel
  induction fuel with
  | zero =>
    intro idx st m h
    simp only [runLoopAux] at h
    injection h with hm
    exact hm.symm
  | succ n ih =>
    intro idx st m h
    simp only [runLoopAux] at h
    cases hit : loopIter cfg sys (oracle idx) st with
    | mk st' out =>
      cases out with
      | none =>
        rw [hit] at h
        exact ih _ _ _ h
      | some o' =>
        rw [hit] at h
        simp only at h
        exact absurd (by rw [hit, h] : (loopIter cfg sys (oracle idx) st).2 = some (.loopCap m))
          (loopIter_not_loopCap cfg sys (oracle idx) st m)

/-- C1, corrected: when the agent loop exhausts `maxLoops` without a
passing audit, the configured cap is reported in the printed message,
but the run ends *normally*: `runAgentLoop` returns without throwing,
so the CLI action never reaches `process.exit(1)` and the process exits
with code 0, not 1. -/
theorem loop_cap_normal_return (cfg : LoopConfig) (sys : Str) (oracle : Nat → TurnOracle)
    (session : Session) (m : Str)
    (h : (runAgentLoop cfg sys oracle session).2 = .loopCap m) :
    m = capMessage cfg ∧ runExitCode (runAgentLoop cfg sys oracle session).2 = 0 := by
  constructor
  · have h' := h
    unfold runAgentLoop at h'
    exact runLoopAux_loopCap_msg cfg sys oracle cfg.maxLoops 0 _ m h'
  · rw [h]
    rfl

/-- Witness for C1's corrected claim: a two-iteration run that never
reaches `DONE` falls out at the cap with exit code 0. -/
theorem loop_cap_normal_return_witness :
    capMessage ⟨2, 3, 1000000⟩ = capMessage ⟨2, 3, 1000000⟩ ∧
    runExitCode
      (runAgentLoop ⟨2, 3, 1000000⟩ "sys".data
        (fun _ =>
          ⟨.success ("# Agent Response\n## Tool Choice\nCOMMAND\n## Tool Input\nls").data,
            fun _ => "ok".data, false, [], false, [], 1, [], []⟩)
        ⟨"task".data, [], [], []⟩).2 = 0 :=
  loop_cap_normal_return ⟨2, 3, 1000000⟩ "sys".data
    (fun _ =>
      ⟨.success ("# Agent Response\n## Tool Choice\nCOMMAND\n## Tool Input\nls").data,
        fun _ => "ok".data, false, [], false, [], 1, [], []⟩)
    ⟨"task".data, [], [], []⟩ (capMessage ⟨2, 3, 1000000⟩) (by decide)

/-- Counterexample for C1 as stated: a concrete run that reaches
`maxLoops = 1` without a passing audit ends with the loop-cap outcome —
a normal return reporting the cap — and the process exit code is 0,
not 1 as the claim requires. -/
theorem loop_cap_exit_code_counterexample :
    (runAgentLoop ⟨1, 3, 1000000⟩ "sys".data
        (fun _ =>
          ⟨.success ("# Agent Response\n## Tool Choice\nCOMMAND\n## Tool Input\nls").data,
            fun _ => "ok".data, false, [], false, [], 1, [], []⟩)
        ⟨"task".data, [], [], []⟩).2 =
      .loopCap (capMessage ⟨1, 3, 1000000⟩) ∧
    runExitCode
      (runAgentLoop ⟨1, 3, 1000000⟩ "sys".data
        (fun _ =>
          ⟨.success ("# Agent Response\n## Tool Choice\nCOMMAND\n## Tool Input\nls").data,
            fun _ => "ok".data, false, [], false, [], 1, [], []⟩)
        ⟨"task".data, [], [], []⟩).2 = 0 := by
  decide

/-! ## C3: history growth per model call -/

theorem pushHistory_length (st : LoopState) (ms : List Message) :
    (pushHistory st ms).session.history.length = st.session.history.length + ms.length := by
  simp [pushHistory]

theorem pushHistory_modelCalls (st : LoopState) (ms : List Message) :
    (pushHistory st ms).modelCalls = st.modelCalls := rfl

/-- The compression phase preserves the growth invariant: it shrinks the
history to two messages at the cost of one model call. -/
theorem compressStep_growth (cfg : LoopConfig) (sys : Str) (o : TurnOracle) (st : LoopState) :
    (compressStep cfg sys o st).session.history.length + 2 * st.modelCalls ≤
      st.session.history.length + 2 * (compressStep cfg sys o st).modelCalls := by
  unfold compressStep
  split
  · simp only [compressContext]
    simp
    omega
  · omega

/-- The post-compression body appends at most two history entries per
model call it makes, provided the audit sub-agent makes at least one
model call (its `while` loop always streams at least one completion). -/
theorem loopMain_growth (cfg : LoopConfig) (o : TurnOracle) (st : LoopState)
    (ha : 1 ≤ o.auditCalls) :
    (loopMain cfg o st).1.session.history.length + 2 * st.modelCalls ≤
      st.session.history.length + 2 * (loopMain cfg o st).1.modelCalls := by
  obtain ⟨api, exec, te, tt, ap, af, ac, cs, ct⟩ := o
  simp only at ha
  cases api with
  | failure msg =>
    dsimp only [loopMain]
    split <;> simp
  | success response =>
    dsimp only [loopMain]
    cases hp : parseResponse response with
    | none =>
      simp only [hp]
      split <;> simp [pushHistory_length, pushHistory_modelCalls] <;> omega
    | some parsed =>
      simp only [hp]
      split_ifs <;> simp [pushHistory_length, pushHistory_modelCalls] <;> omega

/-- One whole iteration appends at most two history entries per model
call. -/
theorem loopIter_growth (cfg : LoopConfig) (sys : Str) (o : TurnOracle) (st : LoopState)
    (ha : 1 ≤ o.auditCalls) :
    (loopIter cfg sys o st).1.session.history.length + 2 * st.modelCalls ≤
      st.session.history.length + 2 * (loopIter cfg sys o st).1.modelCalls := by
  have h1 := compressStep_growth cfg sys o st
  have h2 := loopMain_growth cfg o (compressStep cfg sys o st) ha
  unfold loopIter
  omega

/-- The loop driver preserves the growth invariant across iterations. -/
theorem runLoopAux_growth (cfg : LoopConfig) (sys : Str) (oracle : Nat → TurnOracle)
    (ha : ∀ i, 1 ≤ (oracle i).auditCalls) :
    ∀ fuel idx st,
      (runLoopAux cfg sys oracle fuel idx st).1.session.history.length + 2 * st.modelCalls ≤
        st.session.history.length + 2 * (runLoopAux cfg sys oracle fuel idx st).1.modelCalls := by
  intro fuel
  induction fuel with
  | zero => intro idx st; simp [runLoopAux]
  | succ n ih =>
    intro idx st
    have hgrow := loopIter_growth cfg sys (oracle idx) st (ha idx)
    simp only [runLoopAux]
    cases hit : loopIter cfg sys (oracle idx) st with
    | mk st' out =>
      rw [hit] at hgrow
      cases out with
      | none =>
        have := ih (idx + 1) st'
        dsimp only at hgrow ⊢
        omega
      | some o' =>
        dsimp only at hgrow ⊢
        omega

/-- C3, corrected: after a run of the agent loop in which `n` model
calls were made — counting the main-loop completions, the compression
calls, the thinking calls and the audit sub-agent's calls — the session
history has grown by at most `2n + 1` messages, the `+1` being the
initial system prompt the loop prepends. (Per turn, a plain successful
turn appends one assistant entry and at most one user entry and a parse
failure appends two entries, but an audit-failure turn appends a second
user entry and a thinking turn a second assistant entry, so the bound
holds only when `n` counts every model call.) -/
theorem history_growth_bound (cfg : LoopConfig) (sys : Str) (oracle : Nat → TurnOracle)
    (session : Session) (ha : ∀ i, 1 ≤ (oracle i).auditCalls) :
    (runAgentLoop cfg sys oracle session).1.session.history.length ≤
      session.history.length + 1 +
        2 * (runAgentLoop cfg sys oracle session).1.modelCalls := by
  unfold runAgentLoop
  split
  · have := runLoopAux_growth cfg sys oracle ha cfg.maxLoops 0 ⟨session, 0, 0⟩
    dsimp only at this ⊢
    omega
  · next h =>
    have := runLoopAux_growth cfg sys oracle ha cfg.maxLoops 0
      ⟨{ session with history := ⟨.system, sys⟩ :: session.history }, 0, 0⟩
    dsimp only at this ⊢
    simp only [List.length_cons] at this
    omega

/-- Witness for C3's corrected claim at a concrete run (one iteration,
`COMMAND` then `DONE`, failing audit): the history grows from 1 to 5
while 2 model calls are made, within the `1 + 1 + 2·2` bound. -/
theorem history_growth_bound_witness :
    (runAgentLoop ⟨1, 3, 1000000⟩ "sys".data
        (fun _ =>
          ⟨.success ("# Agent Response\n## Tool Choice\nCOMMAND\n## Tool Input\nls\n" ++
              "## Tool Choice\nDONE\n## Tool Input\ndone").data,
            fun _ => "ok".data, false, [], false, "fix".data, 1, [], []⟩)
        ⟨"task".data, [], [⟨.user, "task".data⟩], []⟩).1.session.history.length ≤
      [Message.mk .user "task".data].length + 1 +
        2 * (runAgentLoop ⟨1, 3, 1000000⟩ "sys".data
          (fun _ =>
            ⟨.success ("# Agent Response\n## Tool Choice\nCOMMAND\n## Tool Input\nls\n" ++
                "## Tool Choice\nDONE\n## Tool Input\ndone").data,
              fun _ => "ok".data, false, [], false, "fix".data, 1, [], []⟩)
          ⟨"task".data, [], [⟨.user, "task".data⟩], []⟩).1.modelCalls :=
  history_growth_bound ⟨1, 3, 1000000⟩ "sys".data
    (fun _ =>
      ⟨.success ("# Agent Response\n## Tool Choice\nCOMMAND\n## Tool Input\nls\n" ++
          "## Tool Choice\nDONE\n## Tool Input\ndone").data,
        fun _ => "ok".data, false, [], false, "fix".data, 1, [], []⟩)
    ⟨"task".data, [], [⟨.user, "task".data⟩], []⟩ (fun _ => le_refl 1)

/-- Counterexample for C3 as stated: a single successful turn whose
tools are a `COMMAND` then `DONE` and whose audit fails appends *three*
entries — the assistant response and *two* user entries (tool results
and audit feedback) — with one main-loop model call, refuting both "at
most one user entry" per successful turn and the `2n + 1` bound when `n`
counts only main-loop calls (growth 4 > 2·1 + 1). -/
theorem history_growth_per_turn_counterexample :
    ((runAgentLoop ⟨1, 3, 1000000⟩ "sys".data
        (fun _ =>
          ⟨.success ("# Agent Response\n## Tool Choice\nCOMMAND\n## Tool Input\nls\n" ++
              "## Tool Choice\nDONE\n## Tool Input\ndone").data,
            fun _ => "ok".data, false, [], false, "fix".data, 1, [], []⟩)
        ⟨"task".data, [], [⟨.user, "task".data⟩], []⟩).1.session.history.map
      (fun msg => msg.role)) = [.system, .user, .assistant, .user, .user] := by
  decide

/-! ## C5: `extractCodeBlock` — line decomposition helpers -/

/-- Function `splitLines` never returns the empty list. -/
theorem splitLines_ne_nil (l : Str) : splitLines l ≠ [] := by
  cases l with
  | nil => simp [splitLines]
  | cons c cs =>
    by_cases hc : c = '\n'
    · simp [splitLines, hc]
    · simp only [splitLines, if_neg hc]
      cases splitLines cs <;> simp

theorem splitLines_no_newline {l : Str} (h : '\n' ∉ l) : splitLines l = [l] := by
  induction l with
  | nil => rfl
  | cons c cs ih =>
    have hc : c ≠ '\n' := fun hc => h (hc ▸ List.mem_cons_self c cs)
    have hcs : '\n' ∉ cs := fun hm => h (List.mem_cons_of_mem c hm)
    simp only [splitLines, if_neg hc, ih hcs]

theorem splitLines_append_newline {l : Str} (rest : Str) (h : '\n' ∉ l) :
    splitLines (l ++ '\n' :: rest) = l :: splitLines rest := by
  induction l with
  | nil => simp [splitLines]
  | cons c cs ih =>
    have hc : c ≠ '\n' := fun hc => h (hc ▸ List.mem_cons_self c cs)
    have hcs : '\n' ∉ cs := fun hm => h (List.mem_cons_of_mem c hm)
    simp only [List.cons_append, splitLines, if_neg hc]
    rw [show cs.append ('\n' :: rest) = cs ++ '\n' :: rest from rfl, ih hcs]

/-- Splitting undoes joining for a nonempty list of newline-free lines. -/
theorem splitLines_joinLines : ∀ {ls : List Str}, ls ≠ [] →
    (∀ l ∈ ls, '\n' ∉ l) → splitLines (joinLines ls) = ls := by
  intro ls
  induction ls with
  | nil => intro h; exact absurd rfl h
  | cons l tl ih =>
    intro _ hnl
    cases tl with
    | nil =>
      simp only [joinLines, List.intersperse, List.flatten, List.append_nil]
      simpa using splitLines_no_newline (hnl l (by simp))
    | cons l' tl' =>
      have hjoin : joinLines (l :: l' :: tl') = l ++ '\n' :: joinLines (l' :: tl') := by
        simp [joinLines, List.intersperse]
      rw [hjoin, splitLines_append_newline _ (hnl l (by simp)),
        ih (by simp) (fun x hx => hnl x (List.mem_cons_of_mem l hx))]

/-- Function `findIdx?` finds the first of no matches before a match. -/
theorem findIdx?_append_first {α : Type} (p : α → Bool) (l₁ l₂ : List α) (x : α)
    (h₁ : ∀ y ∈ l₁, p y = false) (hx : p x = true) :
    List.findIdx? p (l₁ ++ x :: l₂) = some l₁.length := by
  induction l₁ with
  | nil => simp [List.findIdx?_cons, hx]
  | cons a as ih =>
    have ha : p a = false := h₁ a (by simp)
    have has : ∀ y ∈ as, p y = false := fun y hy => h₁ y (by simp [hy])
    simp [List.findIdx?_cons, ha, ih has, Option.map_some]

theorem getD_append_length {α : Type} (l₁ l₂ : List α) (x d : α) :
    (l₁ ++ x :: l₂).getD l₁.length d = x := by
  induction l₁ with
  | nil => rfl
  | cons a as ih => simp only [List.cons_append, List.length_cons, List.getD_cons_succ]; exact ih

theorem drop_append_length_succ {α : Type} (l₁ l₂ : List α) (x : α) :
    (l₁ ++ x :: l₂).drop (l₁.length + 1) = l₂ := by
  induction l₁ with
  | nil => rfl
  | cons a as ih => simp only [List.cons_append, List.length_cons, List.drop_succ_cons]; exact ih

/-- Function `lastIdxWhere` misses only when nothing matches. -/
theorem lastIdxWhere_eq_none {p : Str → Bool} : ∀ {ls : List Str},
    (∀ l ∈ ls, p l = false) → lastIdxWhere p ls = none := by
  intro ls
  induction ls with
  | nil => intro _; rfl
  | cons l tl ih =>
    intro h
    simp only [lastIdxWhere, ih (fun x hx => h x (by simp [hx])), h l (by simp)]
    simp

/-- Function `lastIdxWhere` returns the *last* matching index. -/
theorem lastIdxWhere_eq_some {p : Str → Bool} : ∀ {ls : List Str} {j : Nat}
    (hj : j < ls.length), p (ls.get ⟨j, hj⟩) = true →
    (∀ i (hi : i < ls.length), j < i → p (ls.get ⟨i, hi⟩) = false) →
    lastIdxWhere p ls = some j := by
  intro ls
  induction ls with
  | nil => intro j hj; exact absurd hj (Nat.not_lt_zero j)
  | cons l tl ih =>
    intro j hj hpj hafter
    cases j with
    | zero =>
      have htl : ∀ x ∈ tl, p x = false := by
        intro x hx
        obtain ⟨⟨i, hi⟩, hget⟩ := List.mem_iff_get.mp hx
        have := hafter (i + 1) (by simp only [List.length_cons]; exact Nat.succ_lt_succ hi)
          (Nat.succ_pos i)
        rw [← hget]
        simpa using this
      simp only [lastIdxWhere, lastIdxWhere_eq_none htl]
      simpa using hpj
    | succ j' =>
      have hj' : j' < tl.length := by simpa using Nat.lt_of_succ_lt_succ hj
      have hp' : p (tl.get ⟨j', hj'⟩) = true := by simpa using hpj
      have hafter' : ∀ i (hi : i < tl.length), j' < i → p (tl.get ⟨i, hi⟩) = false := by
        intro i hi hji
        have := hafter (i + 1) (by simp only [List.length_cons]; exact Nat.succ_lt_succ hi)
          (Nat.succ_lt_succ hji)
        simpa using this
      simp only [lastIdxWhere, ih hj' hp' hafter']

theorem findIdx?_eq_none {α : Type} (p : α → Bool) : ∀ {ls : List α},
    (∀ y ∈ ls, p y = false) → List.findIdx? p ls = none := by
  intro ls
  induction ls with
  | nil => intro _; rfl
  | cons a as ih =>
    intro h
    simp [List.findIdx?_cons, h a (by simp), ih (fun y hy => h y (by simp [hy]))]

/-- C5, corrected: `extractCodeBlock` returns `null` when no line
matches the opening-fence pattern; and on an input made of non-fence
lines, an opening fence line for character `c`, and a body whose first
line is not blank, it returns the body's content up to the *last* line
consisting of 3 or more `c`s and trailing whitespace — regardless of
the opener's run length, not only for runs at least as long as the
opener's — with trailing whitespace stripped, and `null` when no such
closing line exists. -/
theorem extractCodeBlock_characterization :
    (∀ input : Str, (∀ l ∈ splitLines input, openFenceLine l = none) →
        extractCodeBlock input = none) ∧
    (∀ (preLines : List Str) (opLine b0 : Str) (rest : List Str) (c : Char) (n : Nat),
      (∀ l ∈ preLines, openFenceLine l = none) →
      openFenceLine opLine = some (c, n) →
      wsOnlyLine b0 = false →
      (∀ l ∈ preLines, '\n' ∉ l) → '\n' ∉ opLine →
      (∀ l ∈ b0 :: rest, '\n' ∉ l) →
      ((∀ l ∈ b0 :: rest, closeFenceLine c l = false) →
        extractCodeBlock (joinLines (preLines ++ opLine :: b0 :: rest)) = none) ∧
      (∀ j (hj : j < (b0 :: rest).length),
        closeFenceLine c ((b0 :: rest).get ⟨j, hj⟩) = true →
        (∀ i (hi : i < (b0 :: rest).length), j < i →
          closeFenceLine c ((b0 :: rest).get ⟨i, hi⟩) = false) →
        extractCodeBlock (joinLines (preLines ++ opLine :: b0 :: rest)) =
          some (jsTrimEnd (joinLines ((b0 :: rest).take j))))) := by
  constructor
  · intro input hall
    have hfind : List.findIdx? (fun l => (openFenceLine l).isSome) (splitLines input) =
        none :=
      findIdx?_eq_none _ (fun y hy => by simp [hall y hy])
    simp only [extractCodeBlock, hfind]
  · intro preLines opLine b0 rest c n hpre hop hb0 hprenl hopnl hbodynl
    have hnl : ∀ l ∈ preLines ++ opLine :: b0 :: rest, '\n' ∉ l := by
      intro l hl
      rcases List.mem_append.mp hl with h | h
      · exact hprenl l h
      · rcases List.mem_cons.mp h with h | h
        · exact h ▸ hopnl
        · exact hbodynl l h
    have hsplit : splitLines (joinLines (preLines ++ opLine :: b0 :: rest)) =
        preLines ++ opLine :: b0 :: rest :=
      splitLines_joinLines (by simp) hnl
    have hfind : List.findIdx? (fun l => (openFenceLine l).isSome)
        (preLines ++ opLine :: b0 :: rest) = some preLines.length :=
      findIdx?_append_first _ _ _ _ (fun y hy => by simp [hpre y hy]) (by simp [hop])
    have hgetD : (preLines ++ opLine :: b0 :: rest).getD preLines.length [] = opLine :=
      getD_append_length _ _ _ _
    have hdrop : (preLines ++ opLine :: b0 :: rest).drop (preLines.length + 1) =
        b0 :: rest :=
      drop_append_length_succ _ _ _
    have htake : ((b0 :: rest).takeWhile wsOnlyLine).length = 0 := by
      simp [List.takeWhile_cons, hb0]
    have hklen :
        ¬(((b0 :: rest).takeWhile wsOnlyLine).length = (b0 :: rest).length) := by
      simp [htake]
    constructor
    · intro hnone
      have hlast : lastIdxWhere (closeFenceLine c) (b0 :: rest) = none :=
        lastIdxWhere_eq_none hnone
      simp only [extractCodeBlock, hsplit, hfind, hgetD, hop, hdrop, htake,
        List.drop_zero, hlast, List.length_cons]
      simp
    · intro j hj hpj hafter
      have hlast : lastIdxWhere (closeFenceLine c) (b0 :: rest) = some j :=
        lastIdxWhere_eq_some hj hpj hafter
      simp only [extractCodeBlock, hsplit, hfind, hgetD, hop, hdrop, htake,
        List.drop_zero, hlast, List.length_cons]
      simp

/-- Witness for C5's corrected claim at a concrete input: a 4-backtick
opener with info string, preceded by a non-fence line, closed by a bare
3-backtick line after one content line. -/
theorem extractCodeBlock_characterization_witness :
    extractCodeBlock
        (joinLines (["\"doc.md\"".data] ++ "````md".data :: "X".data :: ["```".data])) =
      some (jsTrimEnd (joinLines (("X".data :: ["```".data]).take 1))) :=
  ((extractCodeBlock_characterization.2 ["\"doc.md\"".data] "````md".data "X".data
      ["```".data] '`' 4 (by decide) (by decide) (by decide) (by decide) (by decide)
      (by decide)).2 1 (by decide) (by decide)
    (fun i hi hlt => absurd hlt (by
      simp only [List.length_cons, List.length_nil] at hi
      omega)))

/-- Counterexample for C5 as stated: with a 4-backtick opener, the claim
requires the closing fence's run length to be at least 4 and so predicts
`null` for `"````\nX\n```"`; the implementation's closing scan accepts
any run of 3 or more of the fence character and returns `"X"`. The
specified variant (`extractCodeBlockClaimed`) differs from the
implementation on this input. -/
theorem extractCodeBlock_opener_length_counterexample :
    extractCodeBlock "````\nX\n```".data = some "X".data ∧
    extractCodeBlockClaimed "````\nX\n```".data = none := by
  decide

end DevMd
